import Mathlib

/-!
Verification of the DRM-injection service (`src/backend/src/services/sinfInjector.ts`).

The TypeScript service is shallowly embedded here.  Effectful collaborators
(the `unzip`/`zip` child processes, `Buffer` codecs and the two third-party
plist libraries) are modelled as explicit functional parameters:

* `b64`     models `Buffer.from(s, "base64")`,
* `utf8`    models `Buffer.prototype.toString("utf-8")`,
* `bparse`  models `bplistParser.parseBuffer` (`none` models a thrown error),
* `xparse`  models `plist.parse` (`none` models a thrown error),
* `bcreate` models `bplistCreator` (`none` models a thrown error),
* `reader`  models `readEntry ipaPath` (bytes of an archive entry),
* `entries` models the result of `listEntries ipaPath`.

Byte buffers are `List Nat`; filesystem paths manipulated by `path.resolve`
are lists of path segments of an absolute POSIX path.  Filesystem mutations
and the external `zip` invocation are reified as a trace of `FsEvent`s (the
exit status of the external `zip` tool itself is abstracted as success).
-/

namespace SinfInjector

/-- Boolean prefix test on character lists. -/
def charsLead : List Char → List Char → Bool
  | [], _ => true
  | _ :: _, [] => false
  | a :: as, b :: bs => a = b && charsLead as bs

/-- Boolean contiguous-sublist test on character lists. -/
def charsInside (pat : List Char) : List Char → Bool
  | [] => charsLead pat []
  | c :: rest => charsLead pat (c :: rest) || charsInside pat rest

/-- JS `String.prototype.includes`, on the character lists of the strings. -/
def jsIncludes (s pat : String) : Bool := charsInside pat.data s.data

/-- JS `String.prototype.endsWith`. -/
def jsEndsWith (s pat : String) : Bool := charsLead pat.data.reverse s.data.reverse

/-- JS `String.prototype.startsWith`. -/
def jsStartsWith (s pat : String) : Bool := charsLead pat.data s.data

/-- Splits a character list at every occurrence of `sep` (JS `split`). -/
def splitChars (sep : Char) : List Char → List (List Char)
  | [] => [[]]
  | c :: rest =>
    if c = sep then [] :: splitChars sep rest
    else
      match splitChars sep rest with
      | [] => [[c]]
      | h :: t => (c :: h) :: t

/-- JS `String.prototype.split` with a one-character separator. -/
def jsSplit (s : String) (sep : Char) : List String :=
  (splitChars sep s.data).map String.mk

/-- Replaces the first occurrence of `pat` in a character list (JS
`String.prototype.replace` with a string pattern replaces only the first
occurrence).  If `pat` does not occur, the list is unchanged. -/
def replaceFirstChars (pat rep : List Char) : List Char → List Char
  | [] => []
  | c :: rest =>
    if pat.isPrefixOf (c :: rest) then rep ++ (c :: rest).drop pat.length
    else c :: replaceFirstChars pat rep rest

/-- JS `String.prototype.replace` with a plain-string pattern: first
occurrence only. -/
def jsReplaceFirst (s pat rep : String) : String :=
  String.mk (replaceFirstChars pat.data rep.data s.data)

/-- The generic property-tree value produced by the plist libraries, restricted
to the variants this program consumes (strings, numbers, booleans, ordered
sequences, ordered string-keyed mappings). -/
inductive PValue where
  | str (s : String)
  | int (n : Int)
  | bool (b : Bool)
  | arr (elems : List PValue)
  | dict (entries : List (String × PValue))

/-- JS `typeof v === "object"` for a plist value: arrays and plain objects
are objects, strings/numbers/booleans are not. -/
def isJsObject : PValue → Bool
  | .arr _ => true
  | .dict _ => true
  | _ => false

/-- JS property access `v[key]` on a decoded plist value: defined (non-`undefined`)
exactly for the keys of an object. -/
def pGet (v : PValue) (key : String) : Option PValue :=
  match v with
  | .dict entries => entries.lookup key
  | _ => none

/-- JS string coercion of a plist value, as used by template-literal
interpolation.  Strings pass through unchanged; numbers and booleans print
in the JS way; arrays join their elements with a comma (only one level of
nesting is rendered; no code path of the service applies this to a nested
sequence); plain objects print as `[object Object]`. -/
def jsToString : PValue → String
  | .str s => s
  | .int n => toString n
  | .bool b => cond b "true" "false"
  | .arr l =>
      String.intercalate "," (l.map fun v =>
        match v with
        | .str s => s
        | .int n => toString n
        | .bool b => cond b "true" "false"
        | .arr _ => ""
        | .dict _ => "[object Object]")
  | .dict _ => "[object Object]"

/-- One DRM blob record as supplied by the caller (`Sinf` from
`src/backend/src/types`): a base64-transport-encoded payload. -/
structure Sinf where
  sinf : String
deriving DecidableEq

/-- One element of `filesToInject`: a destination entry path plus the raw
bytes to place there. -/
structure InjectionItem where
  entryPath : String
  data : List Nat
deriving DecidableEq

/-- Result record of `readManifestPlist` (`{ sinfPaths }`).  The TS code casts
the decoded array with `as string[]` without checking elements, so the model
keeps the raw decoded values. -/
structure ManifestResult where
  sinfPaths : List PValue

/-- Result record of `readInfoPlist` (`{ bundleExecutable }`). -/
structure InfoResult where
  bundleExecutable : String

/-- Embedding of `parsePlistBuffer`: first try the binary parser; when it
throws (`none`) or yields an empty array, fall through to the XML attempt,
which runs `plist.parse` only when the decoded text contains a recognizable
marker and keeps the result only when it is a JS object; otherwise `null`. -/
def parsePlistBuffer (bparse : List Nat → Option (List PValue))
    (xparse : String → Option PValue) (utf8 : List Nat → String)
    (data : List Nat) : Option PValue :=
  let bin : Option PValue :=
    match bparse data with
    | some parsed => if 0 < parsed.length then parsed.head? else none
    | none => none
  match bin with
  | some v => some v
  | none =>
    let xml := utf8 data
    if jsIncludes xml "<?xml" || jsIncludes xml "<plist" then
      match xparse xml with
      | some parsed => if isJsObject parsed then some parsed else none
      | none => none
    else none

/-- The outer-loop condition of `readBundleName` and `readInfoPlist`:
`entryPath.includes(".app/Info.plist") && !entryPath.includes("/Watch/")`. -/
def qualifiesInfo (entryPath : String) : Bool :=
  jsIncludes entryPath ".app/Info.plist" && !(jsIncludes entryPath "/Watch/")

/-- The inner loop of `readBundleName`: the first path component ending in
`".app"`. -/
def appComponent (entryPath : String) : Option String :=
  (jsSplit entryPath '/').find? (fun c => jsEndsWith c ".app")

/-- Embedding of `readBundleName`: scan the entries; on the first entry that
contains `".app/Info.plist"` and no `"/Watch/"`, return the first `".app"`
component with its first `".app"` occurrence removed; throw when the scan
finishes without returning. -/
def readBundleName : List String → Except String String
  | [] => Except.error "Could not read bundle name"
  | entryPath :: rest =>
    if qualifiesInfo entryPath then
      match appComponent entryPath with
      | some c => Except.ok (jsReplaceFirst c ".app" "")
      | none => readBundleName rest
    else readBundleName rest

/-- The condition of `readManifestPlist`:
`entryPath.endsWith(".app/SC_Info/Manifest.plist")`. -/
def isManifestEntry (entryPath : String) : Bool :=
  jsEndsWith entryPath ".app/SC_Info/Manifest.plist"

/-- Embedding of `readManifestPlist`: on the first entry ending in
`".app/SC_Info/Manifest.plist"`, read and decode it; return `{ sinfPaths }`
when the decoded tree has an array-valued `"SinfPaths"` field, else `null`;
`null` when no entry matches. -/
def readManifestPlist (bparse : List Nat → Option (List PValue))
    (xparse : String → Option PValue) (utf8 : List Nat → String)
    (reader : String → List Nat) : List String → Option ManifestResult
  | [] => none
  | entryPath :: rest =>
    if isManifestEntry entryPath then
      match parsePlistBuffer bparse xparse utf8 (reader entryPath) with
      | some parsed =>
        match pGet parsed "SinfPaths" with
        | some (PValue.arr sinfPaths) => some ⟨sinfPaths⟩
        | _ => none
      | none => none
    else readManifestPlist bparse xparse utf8 reader rest

/-- Embedding of `readInfoPlist`: on the first entry containing
`".app/Info.plist"` and no `"/Watch/"`, read and decode it; return
`{ bundleExecutable }` when the decoded tree has a string-valued
`"CFBundleExecutable"` field, else `null`; `null` when no entry matches. -/
def readInfoPlist (bparse : List Nat → Option (List PValue))
    (xparse : String → Option PValue) (utf8 : List Nat → String)
    (reader : String → List Nat) : List String → Option InfoResult
  | [] => none
  | entryPath :: rest =>
    if qualifiesInfo entryPath then
      match parsePlistBuffer bparse xparse utf8 (reader entryPath) with
      | some parsed =>
        match pGet parsed "CFBundleExecutable" with
        | some (PValue.str executable) => some ⟨executable⟩
        | _ => none
      | none => none
    else readInfoPlist bparse xparse utf8 reader rest

/-- The `iTunesMetadata` block of `inject` (lines 53–67), as the list of items
it pushes onto `filesToInject`.  The JS guard `if (iTunesMetadata)` treats an
absent argument and the empty string (falsy) alike; otherwise the base64 text
is decoded, reinterpreted as UTF-8 XML, parsed and re-encoded as a binary
plist, falling back to the decoded bytes verbatim when parsing or re-encoding
throws; exactly one item at `"iTunesMetadata.plist"` is pushed. -/
def metaFiles (b64 : String → List Nat) (utf8 : List Nat → String)
    (xparse : String → Option PValue) (bcreate : PValue → Option (List Nat)) :
    Option String → List InjectionItem
  | none => []
  | some s =>
    if s = "" then []
    else
      let xmlBuffer := b64 s
      let xmlString := utf8 xmlBuffer
      let metadataBuffer :=
        match (xparse xmlString).bind bcreate with
        | some mb => mb
        | none => xmlBuffer
      [⟨"iTunesMetadata.plist", metadataBuffer⟩]

/-- The planning phase of `inject` (lines 18–67): everything up to (and
excluding) the conditional `addFilesToZip` call, returning the collected
`filesToInject` list.  The manifest loop pushes, for each index `i` below the
manifest length that is not skipped by `i >= sinfs.length`, one item at
`Payload/<bundle>.app/<sinfPaths[i]>` holding blob `i`'s base64-decoded
bytes; the info-plist fallback pushes one item from the first blob when any
blob exists; when neither manifest nor info plist is usable the function
throws; the metadata items of `metaFiles` are pushed last. -/
def injectPlan (b64 : String → List Nat) (utf8 : List Nat → String)
    (bparse : List Nat → Option (List PValue)) (xparse : String → Option PValue)
    (bcreate : PValue → Option (List Nat)) (reader : String → List Nat)
    (entries : List String) (sinfs : List Sinf) (iTunesMetadata : Option String) :
    Except String (List InjectionItem) :=
  match readBundleName entries with
  | Except.error e => Except.error e
  | Except.ok bundleName =>
    match readManifestPlist bparse xparse utf8 reader entries with
    | some manifest =>
      let drmItems := (List.range manifest.sinfPaths.length).filterMap (fun i =>
        if sinfs.length ≤ i then none
        else
          let sinfPath := manifest.sinfPaths.getD i (PValue.str "")
          some ⟨"Payload/" ++ bundleName ++ ".app/" ++ jsToString sinfPath,
                b64 ((sinfs.getD i ⟨""⟩).sinf)⟩)
      Except.ok (drmItems ++ metaFiles b64 utf8 xparse bcreate iTunesMetadata)
    | none =>
      match readInfoPlist bparse xparse utf8 reader entries with
      | some info =>
        let drmItems :=
          if 0 < sinfs.length then
            [⟨"Payload/" ++ bundleName ++ ".app/SC_Info/" ++ info.bundleExecutable ++ ".sinf",
              b64 ((sinfs.getD 0 ⟨""⟩).sinf)⟩]
          else []
        Except.ok (drmItems ++ metaFiles b64 utf8 xparse bcreate iTunesMetadata)
      | none => Except.error "Could not read manifest or info plist"

/-- One invocation of an external process (`child_process.execFile`). -/
structure ExecCall where
  cmd : String
  args : List String
deriving DecidableEq

/-- Embedding of `readEntry`: unconditionally runs
`unzip -p -- <ipaPath> <entryPath>` (the `--` prevents the entry path from
being parsed as flags) and returns the captured stdout; the first component
is the list of process invocations performed. -/
def readEntry (run : ExecCall → List Nat) (ipaPath entryPath : String) :
    List ExecCall × List Nat :=
  let call : ExecCall := ⟨"unzip", ["-p", "--", ipaPath, entryPath]⟩
  ([call], run call)

/-- Normalizes the path segments of `rest` against the already-normalized
absolute path `acc`: empty and `"."` segments are dropped, `".."` removes the
last accumulated segment (staying at the root when there is none), any other
segment is appended.  This is POSIX `path.resolve` normalization. -/
def normSegs (acc : List String) : List String → List String
  | [] => acc
  | seg :: rest =>
    if seg = "" || seg = "." then normSegs acc rest
    else if seg = ".." then normSegs acc.dropLast rest
    else normSegs (acc ++ [seg]) rest

/-- POSIX `path.resolve(base, p)` for an absolute, normalized `base` given as
segments: an absolute `p` is normalized from the root, a relative `p` is
normalized against `base`. -/
def resolveUnder (base : List String) (p : String) : List String :=
  if jsStartsWith p "/" then normSegs [] (jsSplit p '/')
  else normSegs base (jsSplit p '/')

/-- Renders absolute-path segments back to a POSIX path string. -/
def renderAbs (segs : List String) : String :=
  "/" ++ String.intercalate "/" segs

/-- The traversal guard of `addFilesToZip` (lines 117–120):
`path.resolve(tmpDir, entryPath).startsWith(resolvedTmpDir + path.sep)`. -/
def pathGuardOk (tmpDir : List String) (entryPath : String) : Bool :=
  jsStartsWith (renderAbs (resolveUnder tmpDir entryPath)) (renderAbs tmpDir ++ "/")

/-- A reified filesystem / external-tool effect of `addFilesToZip`. -/
inductive FsEvent where
  | mkdirp (dir : List String)
  | writeFile (p : List String) (data : List Nat)
  | zipUpdate (ipaPath : String) (relativePaths : List String)
  | rmTree (dir : List String)
deriving DecidableEq

/-- Whether an event is the external `zip` archive update. -/
def FsEvent.isZipUpdate : FsEvent → Bool
  | .zipUpdate _ _ => true
  | _ => false

/-- The staging loop of `addFilesToZip` (lines 114–124): for each file in
order, resolve its destination against the staging root; when the guard
fails, throw `Path traversal detected` performing no mutation for that item
(stopping the loop); otherwise create the parent directory, write the bytes
and record the relative path.  Returns the performed events and either the
collected relative paths or the thrown error. -/
def stageFiles (tmpDir : List String) :
    List InjectionItem → List FsEvent × Except String (List String)
  | [] => ([], Except.ok [])
  | file :: rest =>
    if pathGuardOk tmpDir file.entryPath then
      let r := stageFiles tmpDir rest
      (FsEvent.mkdirp (resolveUnder tmpDir file.entryPath).dropLast ::
         FsEvent.writeFile (resolveUnder tmpDir file.entryPath) file.data :: r.1,
       r.2.map (fun rels => file.entryPath :: rels))
    else
      ([], Except.error ("Path traversal detected in entry: " ++ file.entryPath))

/-- Embedding of `addFilesToZip`: stage every file under the scratch
directory, then run the external `zip` update with the collected relative
paths; the `finally` block removes the scratch directory on every exit path.
The scratch directory created by `mkdtemp` is passed in as segments of an
absolute path; the external `zip` tool's own exit status is abstracted as
success. -/
def addFilesToZip (tmpDir : List String) (ipaPath : String)
    (files : List InjectionItem) : List FsEvent × Except String Unit :=
  let staged := stageFiles tmpDir files
  match staged.2 with
  | Except.ok relativePaths =>
    (staged.1 ++ [FsEvent.zipUpdate ipaPath relativePaths, FsEvent.rmTree tmpDir],
     Except.ok ())
  | Except.error e => (staged.1 ++ [FsEvent.rmTree tmpDir], Except.error e)

/-- Embedding of `inject` (lines 13–72): build the plan, then call
`addFilesToZip` only when `filesToInject.length > 0`.  Returns the filesystem
trace together with the terminal outcome. -/
def inject (tmpDir : List String) (b64 : String → List Nat)
    (utf8 : List Nat → String) (bparse : List Nat → Option (List PValue))
    (xparse : String → Option PValue) (bcreate : PValue → Option (List Nat))
    (reader : String → List Nat) (entries : List String) (sinfs : List Sinf)
    (ipaPath : String) (iTunesMetadata : Option String) :
    List FsEvent × Except String Unit :=
  match injectPlan b64 utf8 bparse xparse bcreate reader entries sinfs iTunesMetadata with
  | Except.error e => ([], Except.error e)
  | Except.ok filesToInject =>
    if 0 < filesToInject.length then addFilesToZip tmpDir ipaPath filesToInject
    else ([], Except.ok ())

/-- Boolean success test for `Except`. -/
def isOkE {ε α : Type} : Except ε α → Bool
  | Except.ok _ => true
  | Except.error _ => false

/-- Spec-side notion used by the claims: a destination path contains a
parent-directory segment. -/
def containsParentSegment (p : String) : Bool :=
  (jsSplit p '/').contains ".."

/-- Spec-side notion used by the claims: an entry path capable of traversing
outside the archive's namespace (a parent-directory segment or an absolute
path). -/
def traversalCapable (p : String) : Bool :=
  (jsSplit p '/').contains ".." || jsStartsWith p "/"

/-- Spec-side `findBundleRoot`, following the spec's words: the first entry
matching the pattern `.../<Name>.app/Info.plist` (so ending in
`".app/Info.plist"`) whose path has no `"/Watch/"` segment; `<Name>` is the
path component directly before `Info.plist` with its `".app"` suffix
removed. -/
def specFindBundleRoot (entries : List String) : Except String String :=
  match entries.find? (fun e => jsEndsWith e ".app/Info.plist" && !(jsIncludes e "/Watch/")) with
  | some e =>
    let comps := jsSplit e '/'
    let nameApp := comps.getD (comps.length - 2) ""
    Except.ok (nameApp.dropRight 4)
  | none => Except.error "BundleNotFound"

/-- Code-derived first-match reformulation of `readBundleName`, used to state
the amended C4: the first entry that both qualifies (contains
`".app/Info.plist"`, no `"/Watch/"`) and has a `".app"`-suffixed component
determines the result. -/
def bundleNameFirstQualifying (entries : List String) : Except String String :=
  match entries.find? (fun e => qualifiesInfo e && (appComponent e).isSome) with
  | some e =>
    match appComponent e with
    | some c => Except.ok (jsReplaceFirst c ".app" "")
    | none => Except.error "Could not read bundle name"
  | none => Except.error "Could not read bundle name"

/-- The per-entry extraction step of `readManifestPlist`: decode the entry's
bytes and keep an array-valued `"SinfPaths"` field. -/
def manifestOfPlist (bparse : List Nat → Option (List PValue))
    (xparse : String → Option PValue) (utf8 : List Nat → String)
    (data : List Nat) : Option ManifestResult :=
  match parsePlistBuffer bparse xparse utf8 data with
  | some parsed =>
    match pGet parsed "SinfPaths" with
    | some (PValue.arr sinfPaths) => some ⟨sinfPaths⟩
    | _ => none
  | none => none

/-- The fixed 8-byte binary-plist magic header `bplist00`, as bytes. -/
def bplistMagic : List Nat := [98, 112, 108, 105, 115, 116, 48, 48]

/-- ASCII bytes of a string (for concrete test buffers). -/
def asciiBytes (s : String) : List Nat := s.data.map Char.toNat

/-- ASCII decoding of bytes (a concrete instance of the `utf8` oracle). -/
def asciiOfBytes (l : List Nat) : String := String.mk (l.map Char.ofNat)

/-- A concrete archive listing: one bundle `Foo` with an `Info.plist` and a
DRM manifest. -/
def entriesW : List String :=
  ["Payload/Foo.app/Info.plist", "Payload/Foo.app/SC_Info/Manifest.plist"]

/-- Concrete decoded manifest plist for the witnesses. -/
def manifestPlistW : PValue :=
  PValue.dict [("SinfPaths", PValue.arr [PValue.str "SC_Info/Foo.sinf"])]

/-- Concrete decoded `Info.plist` for the witnesses. -/
def infoPlistW : PValue :=
  PValue.dict [("CFBundleExecutable", PValue.str "Foo")]

/-- Concrete entry reader: the manifest entry holds byte `1`, everything else
byte `2`. -/
def readerW : String → List Nat :=
  fun e => if e = "Payload/Foo.app/SC_Info/Manifest.plist" then [1] else [2]

/-- Concrete binary-plist decoder for the witnesses. -/
def bparseW : List Nat → Option (List PValue) :=
  fun d => if d = [1] then some [manifestPlistW]
    else if d = [2] then some [infoPlistW] else none

/-- Concrete base64 decoder stand-in for the witnesses (any function of the
right type serves, since the planner treats it as opaque). -/
def b64W : String → List Nat := fun s => s.data.map Char.toNat

/-- Concrete UTF-8 decoder for the witnesses. -/
def utf8W : List Nat → String := asciiOfBytes

/-- Concrete XML-plist parser for the witnesses: always throws. -/
def xparseW : String → Option PValue := fun _ => none

/-- Concrete binary-plist encoder for the witnesses: always throws. -/
def bcreateW : PValue → Option (List Nat) := fun _ => none

/-- Concrete staging root for the witnesses. -/
def tmpW : List String := ["tmp", "sinf-w"]

/-- A listing whose only manifest entry lies under bundle `Bar`, while the
located bundle is `Foo` (for the C7 counterexample). -/
def entriesC7 : List String :=
  ["Payload/Foo.app/Info.plist", "Other/Bar.app/SC_Info/Manifest.plist"]

/-- Binary-plist decoder for the C7 counterexample. -/
def bparseC7 : List Nat → Option (List PValue) :=
  fun d => if d = [1] then some [PValue.dict [("SinfPaths", PValue.arr [PValue.str "x"])]]
    else none

/-- Entry reader for the C7 counterexample: only Bar's manifest has bytes
`[1]`. -/
def readerC7 : String → List Nat :=
  fun e => if e = "Other/Bar.app/SC_Info/Manifest.plist" then [1] else [0]

lemma stageFiles_write_safe (tmp : List String) :
    ∀ (files : List InjectionItem) (p : List String) (d : List Nat),
      FsEvent.writeFile p d ∈ (stageFiles tmp files).1 →
      jsStartsWith (renderAbs p) (renderAbs tmp ++ "/") = true := by
  intro files
  induction files with
  | nil => intro p d h; simp [stageFiles] at h
  | cons hd tl ih =>
    intro p d h
    by_cases hg : pathGuardOk tmp hd.entryPath
    · simp only [stageFiles, if_pos hg, List.mem_cons] at h
      rcases h with h | h | h
      · exact absurd h (by simp)
      · have hp : p = resolveUnder tmp hd.entryPath := by
          injection h with h1 h2
        rw [hp]
        exact hg
      · exact ih p d h
    · simp only [stageFiles, if_neg hg, List.not_mem_nil] at h

lemma stageFiles_error_of_escape (tmp : List String) :
    ∀ (files : List InjectionItem) (file : InjectionItem), file ∈ files →
      pathGuardOk tmp file.entryPath = false →
      isOkE (stageFiles tmp files).2 = false := by
  intro files
  induction files with
  | nil => intro f hf; exact absurd hf (List.not_mem_nil f)
  | cons hd tl ih =>
    intro f hf hguard
    by_cases hg : pathGuardOk tmp hd.entryPath
    · rcases List.mem_cons.mp hf with rfl | hmem
      · rw [hguard] at hg; cases hg
      · have htl := ih f hmem hguard
        simp only [stageFiles, if_pos hg]
        cases h2 : (stageFiles tmp tl).2 with
        | ok v => rw [h2] at htl; simp [isOkE] at htl
        | error e => simp [h2, Except.map, isOkE]
    · simp [stageFiles, if_neg hg, isOkE]

lemma stageFiles_no_zip (tmp : List String) :
    ∀ (files : List InjectionItem) (ev : FsEvent), ev ∈ (stageFiles tmp files).1 →
      ev.isZipUpdate = false := by
  intro files
  induction files with
  | nil => intro ev h; simp [stageFiles] at h
  | cons hd tl ih =>
    intro ev h
    by_cases hg : pathGuardOk tmp hd.entryPath
    · simp only [stageFiles, if_pos hg, List.mem_cons] at h
      rcases h with rfl | rfl | h
      · rfl
      · rfl
      · exact ih ev h
    · simp only [stageFiles, if_neg hg, List.not_mem_nil] at h

/-- C1 (amended): for every batch passed to `addFilesToZip` containing an
item whose destination path does not resolve to a strict descendant of the
staging root, the whole operation fails (the traversal error is thrown), the
external archive update is never invoked, and every file write performed by
the staging loop targets a strict descendant of the staging root — in
particular no unsafe item's bytes are ever written. -/
theorem addFilesToZip_unsafe_path_rejected (tmp : List String) (ipa : String)
    (files : List InjectionItem) (file : InjectionItem) (hmem : file ∈ files)
    (hesc : pathGuardOk tmp file.entryPath = false) :
    isOkE (addFilesToZip tmp ipa files).2 = false ∧
    (∀ ev ∈ (addFilesToZip tmp ipa files).1, ev.isZipUpdate = false) ∧
    (∀ (p : List String) (d : List Nat),
      FsEvent.writeFile p d ∈ (addFilesToZip tmp ipa files).1 →
      jsStartsWith (renderAbs p) (renderAbs tmp ++ "/") = true) := by
  have herr := stageFiles_error_of_escape tmp files file hmem hesc
  cases hstage : (stageFiles tmp files).2 with
  | ok v => rw [hstage] at herr; simp [isOkE] at herr
  | error e =>
    simp only [addFilesToZip, hstage]
    refine ⟨rfl, ?_, ?_⟩
    · intro ev hev
      rcases List.mem_append.mp hev with h | h
      · exact stageFiles_no_zip tmp files ev h
      · rcases List.mem_singleton.mp h with rfl
        rfl
    · intro p d hpd
      rcases List.mem_append.mp hpd with h | h
      · exact stageFiles_write_safe tmp files p d h
      · rcases List.mem_singleton.mp h with h2
        exact absurd h2 (by simp)

/-- Witness for C1: a one-item batch whose destination `"../evil"` escapes
the staging root `/tmp/sinf-x` trips the guard: the operation fails and the
archive update is not invoked. -/
theorem addFilesToZip_unsafe_path_rejected_witness :
    pathGuardOk ["tmp", "sinf-x"] "../evil" = false ∧
    isOkE (addFilesToZip ["tmp", "sinf-x"] "app.ipa" [⟨"../evil", [1]⟩]).2 = false ∧
    (∀ ev ∈ (addFilesToZip ["tmp", "sinf-x"] "app.ipa" [⟨"../evil", [1]⟩]).1,
      ev.isZipUpdate = false) :=
  ⟨by decide,
   (addFilesToZip_unsafe_path_rejected ["tmp", "sinf-x"] "app.ipa"
      [⟨"../evil", [1]⟩] ⟨"../evil", [1]⟩ (by decide) (by decide)).1,
   (addFilesToZip_unsafe_path_rejected ["tmp", "sinf-x"] "app.ipa"
      [⟨"../evil", [1]⟩] ⟨"../evil", [1]⟩ (by decide) (by decide)).2.1⟩

/-- Counterexample to C1 as stated: the destination path `"a/../b"` contains
a parent-directory segment, yet it resolves inside the staging root, so the
guard passes, the operation succeeds, and the archive update is invoked —
the code's guard is on the resolved location, not on the presence of a
parent-directory segment. -/
theorem addFilesToZip_parent_segment_inside_accepted :
    containsParentSegment "a/../b" = true ∧
    (addFilesToZip ["tmp", "sinf-x"] "app.ipa" [⟨"a/../b", [7]⟩]).2 = Except.ok () ∧
    FsEvent.zipUpdate "app.ipa" ["a/../b"] ∈
      (addFilesToZip ["tmp", "sinf-x"] "app.ipa" [⟨"a/../b", [7]⟩]).1 :=
  ⟨by decide, rfl, by decide⟩

/-- C2 (amended): `readEntry` performs no path-based rejection at all: for
every entry path, traversal-capable or not, it invokes the underlying
extraction exactly once, passing the path behind a `--` separator so that it
cannot be parsed as a flag, and returns that invocation's output. -/
theorem readEntry_always_invokes_extraction (run : ExecCall → List Nat)
    (ipaPath entryPath : String) :
    (readEntry run ipaPath entryPath).1 =
      [⟨"unzip", ["-p", "--", ipaPath, entryPath]⟩] ∧
    (readEntry run ipaPath entryPath).2 =
      run ⟨"unzip", ["-p", "--", ipaPath, entryPath]⟩ :=
  ⟨rfl, rfl⟩

/-- Counterexample to C2 as stated: the traversal-capable entry path
`"../../etc/passwd"` is not rejected by `readEntry`; the underlying
extraction is invoked for it. -/
theorem readEntry_no_traversal_rejection :
    traversalCapable "../../etc/passwd" = true ∧
    (readEntry (fun _ => []) "app.ipa" "../../etc/passwd").1 =
      [⟨"unzip", ["-p", "--", "app.ipa", "../../etc/passwd"]⟩] :=
  ⟨by decide, rfl⟩

/-- C3 (amended): the result of `parsePlistBuffer` is determined entirely by
the binary decoder exactly when the binary decoder accepts the buffer with a
nonempty object list: then the result is the first decoded object,
independent of the XML parser.  (When binary decoding throws or yields no
objects the code falls through to the XML attempt even for magic-headed
buffers — see the counterexample.) -/
theorem parsePlistBuffer_binary_nonempty_determines
    (bparse : List Nat → Option (List PValue)) (x1 x2 : String → Option PValue)
    (utf8 : List Nat → String) (data : List Nat) (v : PValue) (l : List PValue)
    (h : bparse data = some (v :: l)) :
    parsePlistBuffer bparse x1 utf8 data = some v ∧
    parsePlistBuffer bparse x1 utf8 data = parsePlistBuffer bparse x2 utf8 data := by
  constructor
  · simp [parsePlistBuffer, h]
  · simp [parsePlistBuffer, h]

/-- Witness for C3: a binary decoder that accepts byte `[0]` as the tree
`{"a"}` fully determines the decode result, whatever the XML parser does. -/
theorem parsePlistBuffer_binary_nonempty_determines_witness :
    (fun _ : List Nat => some [PValue.str "a"]) [0] = some [PValue.str "a"] ∧
    parsePlistBuffer (fun _ => some [PValue.str "a"]) (fun _ => some (PValue.dict []))
      asciiOfBytes [0] = some (PValue.str "a") :=
  ⟨rfl,
   (parsePlistBuffer_binary_nonempty_determines (fun _ => some [PValue.str "a"])
      (fun _ => some (PValue.dict [])) (fun _ => none) asciiOfBytes [0]
      (PValue.str "a") [] rfl).1⟩

/-- Counterexample to C3 as stated: the buffer `"bplist00<plist>"` begins
with the binary-plist magic header, yet when the binary decoder structurally
rejects it (it has no valid trailer; the spec's own codec contract makes such
buffers `MalformedData`), the decode result depends on the XML parser — the
XML branch is consulted, so the result is not determined by the binary
decoder alone. -/
theorem parsePlistBuffer_magic_falls_through_to_xml :
    List.isPrefixOf bplistMagic (asciiBytes "bplist00<plist>") = true ∧
    parsePlistBuffer (fun _ => none) (fun _ => some (PValue.dict [])) asciiOfBytes
      (asciiBytes "bplist00<plist>") = some (PValue.dict []) ∧
    parsePlistBuffer (fun _ => none) (fun _ => none) asciiOfBytes
      (asciiBytes "bplist00<plist>") = none ∧
    some (PValue.dict []) ≠ (none : Option PValue) :=
  ⟨by decide, rfl, rfl, by simp⟩

/-- C4 (amended): `readBundleName` returns, for the first entry in listing
order that contains `".app/Info.plist"` as a substring, contains no
`"/Watch/"`, and has a `".app"`-suffixed path component, the first such
component with its first `".app"` occurrence removed; it fails when no such
entry exists.  (Matching is by substring, not by the `.../<Name>.app/Info.plist`
pattern, and the component used is the first `".app"` component, not the one
adjacent to `Info.plist` — see the counterexample.) -/
theorem readBundleName_first_qualifying (entries : List String) :
    readBundleName entries = bundleNameFirstQualifying entries := by
  induction entries with
  | nil => rfl
  | cons e rest ih =>
    by_cases hq : qualifiesInfo e
    · cases hc : appComponent e with
      | some c =>
        simp [readBundleName, bundleNameFirstQualifying, List.find?_cons, hq, hc]
      | none =>
        simp only [readBundleName, hq, if_true, hc]
        rw [ih]
        simp [bundleNameFirstQualifying, List.find?_cons, hq, hc]
    · simp only [readBundleName, hq, if_false]
      rw [ih]
      simp [bundleNameFirstQualifying, List.find?_cons, hq]

/-- Counterexample to C4 as stated: for the listing
`["A.app/B.app/Info.plist"]` the spec pattern `.../<Name>.app/Info.plist`
names the bundle `B` (the component adjacent to `Info.plist`), but the code
returns `A` (the first `".app"`-suffixed component). -/
theorem readBundleName_pattern_mismatch :
    readBundleName ["A.app/B.app/Info.plist"] = Except.ok "A" ∧
    specFindBundleRoot ["A.app/B.app/Info.plist"] = Except.ok "B" ∧
    ("A" : String) ≠ "B" :=
  ⟨rfl, rfl, by decide⟩

/-- C7 (amended): `readManifestPlist` reads the first entry in listing order
ending in `".app/SC_Info/Manifest.plist"` — anywhere in the archive, not
necessarily under the located bundle — and yields its decoded `"SinfPaths"`
sequence; it returns `none` (non-fatally) when no entry matches, when the
entry fails to decode, or when the decoded tree lacks an array-valued
`"SinfPaths"` field. -/
theorem readManifestPlist_first_match (bparse : List Nat → Option (List PValue))
    (xparse : String → Option PValue) (utf8 : List Nat → String)
    (reader : String → List Nat) (entries : List String) :
    readManifestPlist bparse xparse utf8 reader entries =
      (entries.find? (fun e => isManifestEntry e)).bind
        (fun e => manifestOfPlist bparse xparse utf8 (reader e)) := by
  induction entries with
  | nil => rfl
  | cons e rest ih =>
    by_cases hm : isManifestEntry e
    · simp only [readManifestPlist, hm, if_true, List.find?_cons, Option.some_bind]
      rfl
    · simp only [readManifestPlist, hm, if_false, List.find?_cons]
      rw [ih]
      simp [hm]

/-- Counterexample to C7 as stated: the located bundle is `Foo`, the only
manifest entry in the listing lies under `Bar` (it does not even mention
`Foo.app`), yet `readManifestPlist` reads it and returns its `SinfPaths`. -/
theorem readManifestPlist_not_under_bundle :
    readBundleName entriesC7 = Except.ok "Foo" ∧
    readManifestPlist bparseC7 (fun _ => none) asciiOfBytes readerC7 entriesC7 =
      some ⟨[PValue.str "x"]⟩ ∧
    (∀ e ∈ entriesC7, isManifestEntry e = true → jsIncludes e "Foo.app" = false) :=
  ⟨rfl, rfl, by decide⟩

lemma filterMap_range_min {α : Type} (m n : Nat) (f : Nat → α) :
    (List.range m).filterMap (fun i => if n ≤ i then none else some (f i)) =
    (List.range (min m n)).map f := by
  induction m with
  | zero => simp
  | succ m ih =>
    rw [List.range_succ, List.filterMap_append, ih]
    by_cases h : n ≤ m
    · have h1 : min (m + 1) n = n := Nat.min_eq_right (Nat.le_succ_of_le h)
      have h2 : min m n = n := Nat.min_eq_right h
      simp [h, h1, h2]
    · have hlt : m < n := Nat.lt_of_not_le h
      have h1 : min (m + 1) n = m + 1 := Nat.min_eq_left hlt
      have h2 : min m n = m := Nat.min_eq_left (Nat.le_of_lt hlt)
      rw [h1, h2, List.range_succ, List.map_append]
      simp [h]

lemma injectPlan_meta_split (b64 : String → List Nat) (utf8 : List Nat → String)
    (bparse : List Nat → Option (List PValue)) (xparse : String → Option PValue)
    (bcreate : PValue → Option (List Nat)) (reader : String → List Nat)
    (entries : List String) (sinfs : List Sinf) (meta : Option String) :
    injectPlan b64 utf8 bparse xparse bcreate reader entries sinfs meta =
      (injectPlan b64 utf8 bparse xparse bcreate reader entries sinfs none).map
        (fun l => l ++ metaFiles b64 utf8 xparse bcreate meta) := by
  unfold injectPlan
  cases hb : readBundleName entries with
  | error e => simp [Except.map]
  | ok bundleName =>
    cases hm : readManifestPlist bparse xparse utf8 reader entries with
    | some m => simp [Except.map, metaFiles]
    | none =>
      cases hi : readInfoPlist bparse xparse utf8 reader entries with
      | some info => simp [Except.map, metaFiles]
      | none => simp [Except.map]

/-- C5: when the manifest is present, the planner emits exactly
`min m n` DRM items (`m` manifest paths, `n` blobs), one per index
`i < min m n`, each at `Payload/<bundle>.app/<ManifestPaths[i]>` carrying
blob `i`'s decoded bytes; surplus indices on either side are dropped without
error. -/
theorem injectPlan_manifest_min (b64 : String → List Nat) (utf8 : List Nat → String)
    (bparse : List Nat → Option (List PValue)) (xparse : String → Option PValue)
    (bcreate : PValue → Option (List Nat)) (reader : String → List Nat)
    (entries : List String) (sinfs : List Sinf) (b : String) (paths : List PValue)
    (hb : readBundleName entries = Except.ok b)
    (hm : readManifestPlist bparse xparse utf8 reader entries = some ⟨paths⟩) :
    injectPlan b64 utf8 bparse xparse bcreate reader entries sinfs none =
      Except.ok ((List.range (min paths.length sinfs.length)).map (fun i =>
        ⟨"Payload/" ++ b ++ ".app/" ++ jsToString (paths.getD i (PValue.str "")),
         b64 ((sinfs.getD i ⟨""⟩).sinf)⟩)) := by
  simp [injectPlan, hb, hm, metaFiles, filterMap_range_min]

/-- Witness for C5: one manifest path, two blobs: exactly
`min 1 2 = 1` item is planned, at the manifest-directed destination, with
the first blob's decoded bytes. -/
theorem injectPlan_manifest_min_witness :
    injectPlan b64W utf8W bparseW xparseW bcreateW readerW entriesW
        [⟨"AA"⟩, ⟨"BB"⟩] none =
      Except.ok [⟨"Payload/Foo.app/SC_Info/Foo.sinf", b64W "AA"⟩] :=
  injectPlan_manifest_min b64W utf8W bparseW xparseW bcreateW readerW entriesW
    [⟨"AA"⟩, ⟨"BB"⟩] "Foo" [PValue.str "SC_Info/Foo.sinf"] rfl rfl

/-- C6: when a usable manifest exists the plan consists exclusively of the
manifest-directed items (plus the optional metadata item) — the info-plist
fallback never contributes; when no usable manifest exists but the info
plist yields an executable name and at least one blob exists, exactly one
item is planned, at `Payload/<bundle>.app/SC_Info/<ExecutableName>.sinf`,
carrying only the first blob's bytes. -/
theorem injectPlan_manifest_priority_fallback (b64 : String → List Nat)
    (utf8 : List Nat → String) (bparse : List Nat → Option (List PValue))
    (xparse : String → Option PValue) (bcreate : PValue → Option (List Nat))
    (reader : String → List Nat) (entries : List String) (sinfs : List Sinf)
    (meta : Option String) (b : String)
    (hb : readBundleName entries = Except.ok b) :
    (∀ m : ManifestResult,
      readManifestPlist bparse xparse utf8 reader entries = some m →
      injectPlan b64 utf8 bparse xparse bcreate reader entries sinfs meta =
        Except.ok ((List.range (min m.sinfPaths.length sinfs.length)).map (fun i =>
          ⟨"Payload/" ++ b ++ ".app/" ++ jsToString (m.sinfPaths.getD i (PValue.str "")),
           b64 ((sinfs.getD i ⟨""⟩).sinf)⟩) ++
          metaFiles b64 utf8 xparse bcreate meta)) ∧
    (readManifestPlist bparse xparse utf8 reader entries = none →
      ∀ info : InfoResult,
      readInfoPlist bparse xparse utf8 reader entries = some info →
      0 < sinfs.length →
      injectPlan b64 utf8 bparse xparse bcreate reader entries sinfs meta =
        Except.ok ([⟨"Payload/" ++ b ++ ".app/SC_Info/" ++ info.bundleExecutable ++ ".sinf",
          b64 ((sinfs.getD 0 ⟨""⟩).sinf)⟩] ++
          metaFiles b64 utf8 xparse bcreate meta)) := by
  constructor
  · intro m hm
    simp [injectPlan, hb, hm, filterMap_range_min]
  · intro hm info hi hs
    simp [injectPlan, hb, hm, hi, hs]

/-- Witness for C6 (manifest-priority half): with both a usable manifest and
a usable info plist present, the plan is exactly the manifest-directed item;
no `SC_Info/<ExecutableName>.sinf` fallback item appears. -/
theorem injectPlan_manifest_priority_fallback_witness :
    injectPlan b64W utf8W bparseW xparseW bcreateW readerW entriesW [⟨"AA"⟩] none =
      Except.ok [⟨"Payload/Foo.app/SC_Info/Foo.sinf", b64W "AA"⟩] :=
  (injectPlan_manifest_priority_fallback b64W utf8W bparseW xparseW bcreateW readerW
      entriesW [⟨"AA"⟩] none "Foo" rfl).1 ⟨[PValue.str "SC_Info/Foo.sinf"]⟩ rfl

/-- C8 (amended): for every supplied non-empty metadata string, the plan is
the metadata-free plan extended by exactly one additional item at the fixed
archive-root path `iTunesMetadata.plist` — so a conversion failure never
fails the operation — and when the XML parse of the decoded buffer throws,
that item's bytes are exactly the original decoded bytes. -/
theorem injectPlan_metadata_always_one_item (b64 : String → List Nat)
    (utf8 : List Nat → String) (bparse : List Nat → Option (List PValue))
    (xparse : String → Option PValue) (bcreate : PValue → Option (List Nat))
    (reader : String → List Nat) (entries : List String) (sinfs : List Sinf)
    (s : String) (hs : ¬ s = "") :
    injectPlan b64 utf8 bparse xparse bcreate reader entries sinfs (some s) =
      (injectPlan b64 utf8 bparse xparse bcreate reader entries sinfs none).map
        (fun l => l ++ [⟨"iTunesMetadata.plist",
          match (xparse (utf8 (b64 s))).bind bcreate with
          | some mb => mb
          | none => b64 s⟩]) ∧
    (xparse (utf8 (b64 s)) = none →
      metaFiles b64 utf8 xparse bcreate (some s) =
        [⟨"iTunesMetadata.plist", b64 s⟩]) := by
  constructor
  · have hmf : metaFiles b64 utf8 xparse bcreate (some s) =
        [⟨"iTunesMetadata.plist",
          match (xparse (utf8 (b64 s))).bind bcreate with
          | some mb => mb
          | none => b64 s⟩] := by
      simp [metaFiles, hs]
    rw [injectPlan_meta_split b64 utf8 bparse xparse bcreate reader entries sinfs (some s),
      hmf]
  · intro hx
    simp [metaFiles, hs, hx]

/-- Witness for C8: a non-empty metadata string `"MM"`, with an XML parser
that throws, still yields exactly one `iTunesMetadata.plist` item appended to
the metadata-free plan, carrying the decoded bytes verbatim. -/
theorem injectPlan_metadata_always_one_item_witness :
    injectPlan b64W utf8W bparseW xparseW bcreateW readerW entriesW [] (some "MM") =
      (injectPlan b64W utf8W bparseW xparseW bcreateW readerW entriesW [] none).map
        (fun l => l ++ [⟨"iTunesMetadata.plist", b64W "MM"⟩]) :=
  (injectPlan_metadata_always_one_item b64W utf8W bparseW xparseW bcreateW readerW
      entriesW [] "MM" (by decide)).1

/-- Counterexample to C8 as stated: supplying the metadata argument as the
empty string (a supplied, empty byte buffer after transport decoding) plans
zero `iTunesMetadata.plist` items, because the JS guard `if (iTunesMetadata)`
treats the empty string as falsy. -/
theorem injectPlan_empty_metadata_no_item :
    injectPlan b64W utf8W bparseW xparseW bcreateW readerW entriesW
        [⟨"AA"⟩] (some "") =
      Except.ok [⟨"Payload/Foo.app/SC_Info/Foo.sinf", b64W "AA"⟩] ∧
    ("Payload/Foo.app/SC_Info/Foo.sinf" : String) ≠ "iTunesMetadata.plist" :=
  ⟨rfl, by decide⟩

/-- C9: whenever the combined plan is empty, `inject` performs no filesystem
action at all: `addFilesToZip` is not invoked, the trace is empty, and the
outcome is success. -/
theorem inject_empty_plan_skips_write (tmpDir : List String)
    (b64 : String → List Nat) (utf8 : List Nat → String)
    (bparse : List Nat → Option (List PValue)) (xparse : String → Option PValue)
    (bcreate : PValue → Option (List Nat)) (reader : String → List Nat)
    (entries : List String) (sinfs : List Sinf) (ipaPath : String)
    (meta : Option String)
    (h : injectPlan b64 utf8 bparse xparse bcreate reader entries sinfs meta =
      Except.ok []) :
    inject tmpDir b64 utf8 bparse xparse bcreate reader entries sinfs ipaPath meta =
      ([], Except.ok ()) := by
  simp [inject, h]

/-- Witness for C9: zero blobs with a manifest listing one path and no
metadata payload give an empty plan; `inject` produces no events and
succeeds. -/
theorem inject_empty_plan_skips_write_witness :
    inject tmpW b64W utf8W bparseW xparseW bcreateW readerW entriesW [] "app.ipa"
        none = ([], Except.ok ()) :=
  inject_empty_plan_skips_write tmpW b64W utf8W bparseW xparseW bcreateW readerW
    entriesW [] "app.ipa" none rfl

/-- C10: an empty-string metadata argument behaves exactly like an absent
one (no item, no conversion, identical plan); and for every metadata
argument the plan is the metadata-free plan with the metadata items appended
at the end — so a planned metadata item is always the last item, after all
DRM items — where for a non-empty string the appended tail is exactly one
item at `iTunesMetadata.plist`. -/
theorem injectPlan_metadata_empty_and_last (b64 : String → List Nat)
    (utf8 : List Nat → String) (bparse : List Nat → Option (List PValue))
    (xparse : String → Option PValue) (bcreate : PValue → Option (List Nat))
    (reader : String → List Nat) (entries : List String) (sinfs : List Sinf) :
    injectPlan b64 utf8 bparse xparse bcreate reader entries sinfs (some "") =
      injectPlan b64 utf8 bparse xparse bcreate reader entries sinfs none ∧
    (∀ meta : Option String,
      injectPlan b64 utf8 bparse xparse bcreate reader entries sinfs meta =
        (injectPlan b64 utf8 bparse xparse bcreate reader entries sinfs none).map
          (fun l => l ++ metaFiles b64 utf8 xparse bcreate meta)) ∧
    (∀ s : String, ¬ s = "" →
      (metaFiles b64 utf8 xparse bcreate (some s)).map InjectionItem.entryPath =
        ["iTunesMetadata.plist"]) := by
  refine ⟨?_, ?_, ?_⟩
  · rw [injectPlan_meta_split b64 utf8 bparse xparse bcreate reader entries sinfs
      (some "")]
    cases hx : injectPlan b64 utf8 bparse xparse bcreate reader entries sinfs none with
    | error e => simp [Except.map]
    | ok l => simp [Except.map, metaFiles]
  · intro meta
    exact injectPlan_meta_split b64 utf8 bparse xparse bcreate reader entries sinfs meta
  · intro s hs
    simp [metaFiles, hs]

/-- Witness for C10: at the concrete instance, the metadata tail for the
non-empty string `"MM"` is exactly the single `iTunesMetadata.plist` item. -/
theorem injectPlan_metadata_empty_and_last_witness :
    (metaFiles b64W utf8W xparseW bcreateW (some "MM")).map InjectionItem.entryPath =
      ["iTunesMetadata.plist"] :=
  (injectPlan_metadata_empty_and_last b64W utf8W bparseW xparseW bcreateW readerW
      entriesW []).2.2 "MM" (by decide)

end SinfInjector
